import Mathlib

/-!
Verification of the deobfuscation engine in src/deobfuscation/deobfuscate.mjs.

The source is a straight-line Node.js script that
  1. extracts six encoded numeric arrays from a parsed program,
  2. decodes them with a rolling partial-XOR cipher plus JSON parsing,
  3. rewrites `a.H.<key>.<field>` indirections into rehydrated literals,
  4. collects and inlines `a.G.<key>` aliases.

This file shallowly embeds those parts: char-code sequences are `List Nat`,
Babel AST nodes are the inductive `Node`, JSON values are `Value`, and the
overall pipeline is a state-passing function over an environment that
supplies the two external builtins the script calls (JSON.parse and atob).
-/

namespace Deob

/-- JSON-like runtime values as produced by `JSON.parse` in the source.
Numbers are modelled as integers (the scheme's tables hold integer and
string data; floating point is out of scope of the claims). -/
inductive Value where
  | vnull
  | vbool (b : Bool)
  | vnum (n : Int)
  | vstr (s : String)
  | varr (elems : List Value)
  | vobj (props : List (String × Value))

/- ---------------------------------------------------------------------
   The cipher: function xor(b, c) of deobfuscate.mjs (lines 26-40).
   Strings are modelled as lists of char codes.
   --------------------------------------------------------------------- -/

/-- Key-byte table `e` of the source: the first at most 32 key char codes,
each masked with 31 (source: `e[h] = c.charCodeAt(h) & 31`). -/
def keyBytes (c : List Nat) : List Nat := (c.take 32).map (fun x => x &&& 31)

/-- `d` of the source: `c.length < 32 ? c.length : 32`, i.e. min(len, 32). -/
def keyLen (c : List Nat) : Nat := min c.length 32

/-- The per-byte loop of `xor`: at each input byte `l`, if `l & 224` is
nonzero, emit `l ^ e[c]`, otherwise emit `l` unchanged; then advance the
rolling index `c` by one, wrapping to 0 when it reaches `d`
(source: `c++; c = c === d ? 0 : c;` — the advance is unconditional). -/
def xorGo (e : List Nat) (d : Nat) : Nat → List Nat → List Nat
  | _, [] => []
  | c, l :: rest =>
      (if l &&& 224 ≠ 0 then l ^^^ e.getD c 0 else l)
        :: xorGo e d (if c + 1 = d then 0 else c + 1) rest

/-- Shallow embedding of `xor(b, c)` from deobfuscate.mjs. `b` is the data
string and `c` the key string, both as char-code lists. Notes kept from
the source: the line `c.replace(String.fromCharCode(32), '')` discards its
result (JS strings are immutable and the return value is unused), so it
has no effect and is not modelled; the source then reuses the variable `c`
as the rolling index, which is the first `Nat` argument of `xorGo` here. -/
def xor (b c : List Nat) : List Nat :=
  if c = [] then b else xorGo (keyBytes c) (keyLen c) 0 b

/- ---------------------------------------------------------------------
   AST model. Babel keeps all node kinds in one untyped node type; the
   inductive below covers exactly the node kinds the source inspects or
   builds: identifiers, literals, member/assignment/update/unary/call
   expressions, array and object literals with their properties, function
   expressions (a statement list body) and return statements. Statements
   are nodes too, and a program is a list of (statement) nodes; Babel's
   ExpressionStatement wrapper is transparent to every visitor in the
   source and is therefore not represented. `member`'s flag is the
   `computed` flag (`a.b` vs `a[b]`); `assign` abstracts over the
   assignment operator, and `update` covers the increment and decrement
   forms alike, since the source inspects neither. Array holes are not representable. -/
inductive Node where
  | ident (name : String)
  | num (value : Int)
  | str (value : String)
  | bool (value : Bool)
  | null
  | member (obj : Node) (prop : Node) (computed : Bool)
  | assign (left right : Node)
  | update (arg : Node)
  | unary (op : String) (arg : Node)
  | call (callee : Node) (args : List Node)
  | arrayLit (elems : List Node)
  | objProp (key value : Node)
  | objectLit (props : List Node)
  | funcExpr (body : List Node)
  | ret (arg : Option Node)

/-- `staticPropName(prop)` of deobfuscate.mjs (lines 68-73): an identifier
yields its name, a string literal its value, a numeric literal
`String(value)`; everything else yields null. Note that the source never
consults the `computed` flag of the enclosing member expression. -/
def staticPropName : Node → Option String
  | .ident name => some name
  | .str value => some value
  | .num value => some (toString value)
  | _ => none

mutual

/-- `valueToAst(v)` of deobfuscate.mjs (lines 52-66): rehydrate a decoded
JSON value into literal nodes; object keys become string literals. The
source returns undefined on any other value shape, but `Value` covers all
shapes `JSON.parse` can produce, so the embedding is total. -/
def valueToAst : Value → Node
  | .vnull => .null
  | .vstr s => .str s
  | .vnum n => .num n
  | .vbool b => .bool b
  | .varr es => .arrayLit (valueToAstList es)
  | .vobj ps => .objectLit (valueToAstProps ps)

/-- Rehydrate a list of array elements (the `v.map(valueToAst)` call). -/
def valueToAstList : List Value → List Node
  | [] => []
  | v :: r => valueToAst v :: valueToAstList r

/-- Rehydrate object properties (the `Object.keys(v).map(...)` call),
preserving insertion order and making each key a string literal. -/
def valueToAstProps : List (String × Value) → List Node
  | [] => []
  | (k, v) :: r => .objProp (.str k) (valueToAst v) :: valueToAstProps r
end

/-- The canonical array-index reading of a JS property name: `s` denotes
index `n` exactly when `s` is the decimal representation of `n`. -/
def decIndex (s : String) : Option Nat :=
  match s.toNat? with
  | some n => if toString n = s then some n else none
  | none => none

/-- Own-property lookup on a decoded JSON value, combined with the
preceding `if (!table || typeof table !== 'object') return;` guard: only
objects and arrays (the object-typed values) can yield an entry. Object
properties are looked up by key (a parse with duplicate keys keeps the
last, and `JSON.parse` defines even a `"__proto__"` key as an own data
property); arrays own their elements at canonical numeric indices and
their `length`. -/
def ownGet : Value → String → Option Value
  | .vobj ps, f => ps.lookup f
  | .varr es, f =>
      if f = "length" then some (.vnum (es.length : Int))
      else match decIndex f with
        | some i => es[i]?
        | none => none
  | _, _ => none

/-- `table[propName]` as the source observes it through `valueToAst`: an
own property wins; otherwise the lookup continues up the prototype chain.
Of the inherited properties, only `__proto__` yields a rehydratable
value — `Object.prototype` for objects (whose `Object.keys` enumeration
is empty, so `valueToAst` renders it as the empty object) and
`Array.prototype` for arrays (itself an array of length 0, rendered as
the empty array). Every other inherited property (`toString`,
`hasOwnProperty`, `push`, ...) is a function, for which `valueToAst`
returns undefined and the visitor skips — modelled as a miss. -/
def jsGet (tbl : Value) (f : String) : Option Value :=
  match ownGet tbl f with
  | some v => some v
  | none =>
      match tbl with
      | .vobj _ => if f = "__proto__" then some (.vobj []) else none
      | .varr _ => if f = "__proto__" then some (.varr []) else none
      | _ => none

/-- The five decoded tables (`decoded.z/u/l/I/uB` of deobfuscate.mjs). -/
structure DecTables where
  z : Value
  u : Value
  l : Value
  I : Value
  uB : Value

/-- `decoded[keyName]` restricted to the recognized key list
`['z','u','l','I','uB']` (line 146): any other key yields none. -/
def DecTables.lookup (d : DecTables) (k : String) : Option Value :=
  if k = "z" then some d.z
  else if k = "u" then some d.u
  else if k = "l" then some d.l
  else if k = "I" then some d.I
  else if k = "uB" then some d.uB
  else none

/-- The match-and-build step of the `a.H` resolver visitor (lines
136-158): the node must be a three-level member chain whose innermost
object is the identifier `a` with property identifier `H` (the `computed`
flags are never consulted, mirroring `t.isIdentifier(aH.property,
{name:'H'})` etc.), the middle property must name one of the five table
keys, the outer property must be statically determinable and truthy —
`if (!propName) return;` at line 149 skips the falsy empty string, so
`a.H.z[""]` is never replaced — and the table must yield a value; the
result is the rehydrated literal. Returns none whenever the visitor
would `return` without replacing. (The source's `!keyName` half of the
line-146 guard is redundant: the empty string is not in the key list,
which `DecTables.lookup` already rejects.) -/
def tryResolve (d : DecTables) : Node → Option Node
  | .member (.member (.member (.ident "a") (.ident "H") _) keyP _) propP _ => do
      let k ← staticPropName keyP
      let table ← d.lookup k
      let f ← staticPropName propP
      if f = "" then none
      else (jsGet table f).map valueToAst
  | _ => none

mutual

/-- The `a.H` resolver pass (traverse at lines 126-162) on one node.
`prot` says whether this node sits in a write position relative to its
parent — the left of an assignment, the argument of an update, or the
operand of delete (lines 131-134) — in which case the visitor returns
without replacing, but Babel still descends into the node's children.
When the visitor replaces a node, the replacement is a pure literal tree
(from `valueToAst`), which contains no member expressions, so Babel's
re-visit of the inserted node performs no further rewriting; the model
therefore returns the replacement as-is. -/
def resolveN (d : DecTables) (prot : Bool) : Node → Node
  | .member o p c =>
      match (if prot then none else tryResolve d (.member o p c)) with
      | some repl => repl
      | none => .member (resolveN d false o) (resolveN d false p) c
  | .assign l r => .assign (resolveN d true l) (resolveN d false r)
  | .update a => .update (resolveN d true a)
  | .unary op a => .unary op (resolveN d (op == "delete") a)
  | .call f args => .call (resolveN d false f) (resolveL d args)
  | .arrayLit es => .arrayLit (resolveL d es)
  | .objProp k v => .objProp (resolveN d false k) (resolveN d false v)
  | .objectLit ps => .objectLit (resolveL d ps)
  | .funcExpr b => .funcExpr (resolveL d b)
  | .ret (some e) => .ret (some (resolveN d false e))
  | x => x

/-- The resolver pass over a node list (children of a node, or the
statement list of a program), each node in read position. -/
def resolveL (d : DecTables) : List Node → List Node
  | [] => []
  | n :: rest => resolveN d false n :: resolveL d rest
end

/- ---------------------------------------------------------------------
   The alias inliner: gMap collection (lines 168-186) and substitution
   (lines 189-214).
   --------------------------------------------------------------------- -/

/-- The alias map, `const gMap = new Map()` of the source: association
list from alias key to the recorded right-hand-side expression node. -/
def GMap : Type := List (String × Node)

/-- `gMap.set(k, v)`: overwrite the entry for `k` if present (keeping its
position, as a JS Map does), otherwise append a new entry. -/
def setK : GMap → String → Node → GMap
  | [], k, v => [(k, v)]
  | (k', v') :: rest, k, v =>
      if k' = k then (k', v) :: rest else (k', v') :: setK rest k v

/-- `gMap.get(k)` (an absent key yields undefined, i.e. none). -/
def getK (m : GMap) (k : String) : Option Node :=
  match m with
  | [] => none
  | (k', v') :: rest => if k' = k then some v' else getK rest k

/-- The contribution of one node to the collect pass (the
AssignmentExpression visitor, lines 172-185): an assignment whose left is
`a.G.<key>` (innermost object identifier `a`, property identifier `G`,
`computed` flags not consulted) with a statically determinable, truthy
key records `key -> right`; `if (!k) return;` at line 181 skips the falsy
empty string, so `a.G[""] = expr` is not collected. Any other node
records nothing. -/
def gCollectHere (m : GMap) : Node → GMap
  | .assign l r =>
      match l with
      | .member (.member (.ident "a") (.ident "G") _) p _ =>
          match staticPropName p with
          | some k => if k = "" then m else setK m k r
          | none => m
      | _ => m
  | _ => m

mutual

/-- The collect pass over one node: Babel visits the node itself first and
then its children in source order, so a later assignment to the same key
overwrites an earlier one in the map. -/
def gCollectN (m : GMap) : Node → GMap
  | .assign l r => gCollectN (gCollectN (gCollectHere m (.assign l r)) l) r
  | .member o p _ => gCollectN (gCollectN m o) p
  | .update a => gCollectN m a
  | .unary _ a => gCollectN m a
  | .call f args => gCollectL (gCollectN m f) args
  | .arrayLit es => gCollectL m es
  | .objProp k v => gCollectN (gCollectN m k) v
  | .objectLit ps => gCollectL m ps
  | .funcExpr b => gCollectL m b
  | .ret (some e) => gCollectN m e
  | _ => m

/-- The collect pass over a node list, left to right. -/
def gCollectL (m : GMap) : List Node → GMap
  | [] => m
  | n :: rest => gCollectL (gCollectN m n) rest
end

/-- The match-and-lookup step of the substitute visitor (lines 193-201):
the node must be a member access whose object is `a.G` (identifiers `a`
and `G`; `computed` flags not consulted) with a statically determinable,
truthy key present in the map; `if (!k) return;` at line 199 skips the
falsy empty string, so `a.G[""]` is never substituted. Returns none
whenever the visitor would `return` without replacing. In the source the
write-position guard runs after this lookup; the observable result is
the same, and the guard is handled by `prot` in `gSubstN` below. -/
def trySubst (m : GMap) : Node → Option Node
  | .member (.member (.ident "a") (.ident "G") _) p _ => do
      let k ← staticPropName p
      if k = "" then none else getK m k
  | _ => none

mutual

/-- The substitute pass (traverse at lines 189-214) on one node, with the
same write-position protection (`prot`) as the resolver. The mapped node
is inserted as recorded (by reference in the source), without modelling
Babel's re-visit of a `replaceWith` result. That is faithful exactly when
a substitute pass over the recorded expression rewrites nothing — then
the re-visit finds nothing to replace (Babel's `replaceWith` no-ops on
replacement by the identical node) — and every theorem below stays in
that region: the recorded expressions are either pinned by the
hypotheses `trySubst m e = none` and `gSubstN m false e = e`, or are
concrete nodes containing no `a.G` member accesses. -/
def gSubstN (m : GMap) (prot : Bool) : Node → Node
  | .member o p c =>
      match (if prot then none else trySubst m (.member o p c)) with
      | some repl => repl
      | none => .member (gSubstN m false o) (gSubstN m false p) c
  | .assign l r => .assign (gSubstN m true l) (gSubstN m false r)
  | .update a => .update (gSubstN m true a)
  | .unary op a => .unary op (gSubstN m (op == "delete") a)
  | .call f args => .call (gSubstN m false f) (gSubstL m args)
  | .arrayLit es => .arrayLit (gSubstL m es)
  | .objProp k v => .objProp (gSubstN m false k) (gSubstN m false v)
  | .objectLit ps => .objectLit (gSubstL m ps)
  | .funcExpr b => .funcExpr (gSubstL m b)
  | .ret (some e) => .ret (some (gSubstN m false e))
  | x => x

/-- The substitute pass over a node list, each node in read position. -/
def gSubstL (m : GMap) : List Node → List Node
  | [] => []
  | n :: rest => gSubstN m false n :: gSubstL m rest
end

/-- The two alias passes in source order: one full collect scan of the
program, then one full substitute scan. -/
def aliasRun (p : List Node) : List Node := gSubstL (gCollectL [] p) p

/-- The non-computed three-level access `a.H.<k>.<f>`. -/
def aH3 (k f : String) : Node :=
  .member (.member (.member (.ident "a") (.ident "H") false) (.ident k) false)
    (.ident f) false

/-- The non-computed access `a.G.<k>`. -/
def aG (k : String) : Node :=
  .member (.member (.ident "a") (.ident "G") false) (.ident k) false

/- ---------------------------------------------------------------------
   The pipeline: extraction (lines 89-108), decoding (lines 114-120) and
   the two rewrite passes, in source order. The two external builtins the
   decode phase calls — JSON.parse and atob — are collaborator functions
   supplied through an environment; theorems quantify over them (with the
   single fact that JSON.parse rejects empty input where needed, which is
   part of the JSON grammar).
   --------------------------------------------------------------------- -/

/-- `t.isReturnStatement(s)` (the find predicate at line 78). -/
def isRetStmt : Node → Bool
  | .ret _ => true
  | _ => false

/-- `extractReturnedNumericArrayFromFunction` (lines 76-83): the node must
be a function expression whose body's first return statement returns an
array literal; each element maps to its numeric value, and any non-numeric
element maps to null (`t.isNumericLiteral(el) ? el.value : null`). -/
def extractReturnedNumericArrayFromFunction : Node → Option (List (Option Int))
  | .funcExpr body =>
      match body.find? isRetStmt with
      | some (.ret (some (.arrayLit els))) =>
          some (els.map fun el => match el with
            | .num v => some v
            | _ => none)
      | _ => none
  | _ => none

/-- The `extracted` record: identifier to harvested numeric array. -/
def ExMap : Type := List (String × List (Option Int))

/-- `extracted[key] = arr` (overwrite an existing entry or append). -/
def setEx : ExMap → String → List (Option Int) → ExMap
  | [], k, v => [(k, v)]
  | (k', v') :: rest, k, v =>
      if k' = k then (k', v) :: rest else (k', v') :: setEx rest k v

/-- `extracted[key]` (an absent key is undefined, i.e. none). -/
def getEx (m : ExMap) (k : String) : Option (List (Option Int)) :=
  match m with
  | [] => none
  | (k', v') :: rest => if k' = k then some v' else getEx rest k

/-- The contribution of one node to the extract pass (the
AssignmentExpression visitor at lines 91-107): an assignment whose left is
`a.i.<key>` (identifiers `a` and `i`, property an identifier naming one of
the six recognized keys; `computed` flags not consulted) whose right side
yields a numeric array records `key -> array`. -/
def exHere (m : ExMap) : Node → ExMap
  | .assign l r =>
      match l with
      | .member (.member (.ident "a") (.ident "i") _) (.ident k) _ =>
          if k ∈ ["t", "z", "u", "l", "I", "uB"] then
            match extractReturnedNumericArrayFromFunction r with
            | some arr => setEx m k arr
            | none => m
          else m
      | _ => m
  | _ => m

mutual

/-- The extract pass over one node (node first, then children). -/
def exCollectN (m : ExMap) : Node → ExMap
  | .assign l r => exCollectN (exCollectN (exHere m (.assign l r)) l) r
  | .member o p _ => exCollectN (exCollectN m o) p
  | .update a => exCollectN m a
  | .unary _ a => exCollectN m a
  | .call f args => exCollectL (exCollectN m f) args
  | .arrayLit es => exCollectL m es
  | .objProp k v => exCollectN (exCollectN m k) v
  | .objectLit ps => exCollectL m ps
  | .funcExpr b => exCollectL m b
  | .ret (some e) => exCollectN m e
  | _ => m

/-- The extract pass over a node list, left to right. -/
def exCollectL (m : ExMap) : List Node → ExMap
  | [] => m
  | n :: rest => exCollectL (exCollectN m n) rest
end

/-- The whole extract traversal (lines 89-108) over a program. -/
def extractAll (p : List Node) : ExMap := exCollectL [] p

/-- `String.fromCharCode.apply(null, b)` as char codes: a missing array
(undefined) spreads to no arguments, i.e. the empty string; a null
element coerces to char code 0; char codes are taken modulo 2^16
(ToUint16). -/
def codesOfBytes : Option (List (Option Int)) → List Nat
  | none => []
  | some l => l.map (fun x => ((x.getD 0) % 65536).toNat)

mutual

/-- JS ToString on a JSON value, as `atob` applies to a non-string key:
null prints "null", booleans "true"/"false", numbers their decimal form,
arrays join their elements with "," (null elements joining as the empty
string), objects print "[object Object]". -/
def jsToString : Value → String
  | .vnull => "null"
  | .vbool true => "true"
  | .vbool false => "false"
  | .vnum n => toString n
  | .vstr s => s
  | .varr es => String.intercalate "," (jsToStringArr es)
  | .vobj _ => "[object Object]"

/-- Element strings for the array join. -/
def jsToStringArr : List Value → List String
  | [] => []
  | .vnull :: r => "" :: jsToStringArr r
  | v :: r => jsToString v :: jsToStringArr r
end

/-- `decoded.t[idx]`: numeric indexing on the parsed config value. An
array yields its element, an object the property named by the index, a
string its character at the index. Indexing null actually throws in JS;
it is modelled as an undefined lookup here, which the theorems never rely
on (they only use failure propagation, and the step for a missing table
fails either way). -/
def jsIndex : Value → Nat → Option Value
  | .varr es, i => es[i]?
  | .vobj ps, i => ps.lookup (toString i)
  | .vstr s, i => (s.toList[i]?).map (fun ch => .vstr (String.mk [ch]))
  | _, _ => none

/-- The two external builtins the decode phase calls. -/
structure Env where
  jsonParse : List Nat → Option Value
  atobFn : String → Option (List Nat)

/-- A decode-phase failure, named by the table being decoded when the
underlying builtin threw (`JSON.parse` on malformed text, or `atob` on a
bad key). -/
inductive Err where
  | decodeFail (table : String)

/-- The pipeline state: the tree as parsed, the extracted arrays, and the
six decoded tables filled in by the decode steps. -/
structure PState where
  tree : List Node
  extracted : ExMap
  decodedT : Option Value
  decodedZ : Option Value
  decodedU : Option Value
  decodedL : Option Value
  decodedI : Option Value
  decodedUB : Option Value

/-- `decodeArray(b, c)` (lines 42-45): `JSON.parse(xor(String.fromCharCode
.apply(null, b), atob(c)))`; none models a thrown exception. -/
def decodeArray (env : Env) (bytes : Option (List (Option Int)))
    (key : String) : Option Value :=
  match env.atobFn key with
  | none => none
  | some kb => env.jsonParse (Deob.xor (codesOfBytes bytes) kb)

/-- The key string `decoded.t[idx]` coerced to a string for `atob`. -/
def keyStrAt (s : PState) (idx : Nat) : String :=
  match s.decodedT with
  | none => "undefined"
  | some t =>
      match jsIndex t idx with
      | none => "undefined"
      | some v => jsToString v

/-- Line 115: `decoded.t = JSON.parse(String.fromCharCode.apply(null,
extracted.t));`. -/
def stepT (env : Env) (s : PState) : Except Err PState :=
  match env.jsonParse (codesOfBytes (getEx s.extracted "t")) with
  | none => .error (.decodeFail "t")
  | some v => .ok { s with decodedT := some v }

/-- Line 116: `decoded.z = decodeArray(extracted.z, decoded.t[4]);`. -/
def stepZ (env : Env) (s : PState) : Except Err PState :=
  match decodeArray env (getEx s.extracted "z") (keyStrAt s 4) with
  | none => .error (.decodeFail "z")
  | some v => .ok { s with decodedZ := some v }

/-- Line 117: `decoded.u = decodeArray(extracted.u, decoded.t[6]);`. -/
def stepU (env : Env) (s : PState) : Except Err PState :=
  match decodeArray env (getEx s.extracted "u") (keyStrAt s 6) with
  | none => .error (.decodeFail "u")
  | some v => .ok { s with decodedU := some v }

/-- Line 118: `decoded.l = decodeArray(extracted.l, decoded.t[8]);`. -/
def stepL (env : Env) (s : PState) : Except Err PState :=
  match decodeArray env (getEx s.extracted "l") (keyStrAt s 8) with
  | none => .error (.decodeFail "l")
  | some v => .ok { s with decodedL := some v }

/-- Line 119: `decoded.I = decodeArray(extracted.I, decoded.t[2]);`. -/
def stepI (env : Env) (s : PState) : Except Err PState :=
  match decodeArray env (getEx s.extracted "I") (keyStrAt s 2) with
  | none => .error (.decodeFail "I")
  | some v => .ok { s with decodedI := some v }

/-- Line 120: `decoded.uB = decodeArray(extracted.uB, decoded.t[0]);`. -/
def stepUB (env : Env) (s : PState) : Except Err PState :=
  match decodeArray env (getEx s.extracted "uB") (keyStrAt s 0) with
  | none => .error (.decodeFail "uB")
  | some v => .ok { s with decodedUB := some v }

/-- Run steps in order, stopping at the first failure; the returned state
is the state at the point of failure (or after all steps on success). -/
def runChain : List (PState → Except Err PState) → PState → PState × Option Err
  | [], s => (s, none)
  | f :: fs, s =>
      match f s with
      | .error e => (s, some e)
      | .ok s' => runChain fs s'

/-- The decode phase: the six statements of lines 115-120 in order. -/
def decodeSteps (env : Env) : List (PState → Except Err PState) :=
  [stepT env, stepZ env, stepU env, stepL env, stepI env, stepUB env]

/-- The initial pipeline state: the parsed tree and the extract pass's
result (extraction itself cannot fail; a missing identifier just leaves
its entry absent). -/
def initState (prog : List Node) : PState :=
  { tree := prog, extracted := extractAll prog,
    decodedT := none, decodedZ := none, decodedU := none,
    decodedL := none, decodedI := none, decodedUB := none }

/-- The five decoded tables handed to the resolver once every decode step
has succeeded (each field is then some value; vnull is a formal default
that success never uses). -/
def mkDecTables (s : PState) : DecTables :=
  { z := s.decodedZ.getD .vnull, u := s.decodedU.getD .vnull,
    l := s.decodedL.getD .vnull, I := s.decodedI.getD .vnull,
    uB := s.decodedUB.getD .vnull }

/-- The whole pipeline in source order: extract, decode, then — only if
every decode step succeeded — the `a.H` resolver pass followed by the two
`a.G` alias passes. A decode failure aborts with the state at failure. -/
def deobfuscate (env : Env) (prog : List Node) : PState × Option Err :=
  match runChain (decodeSteps env) (initState prog) with
  | (s, some e) => (s, some e)
  | (s, none) =>
      let t1 := resolveL (mkDecTables s) s.tree
      let t2 := gSubstL (gCollectL [] t1) t1
      ({ s with tree := t2 }, none)

/- ---------------------------------------------------------------------
   Pipeline claims (C8, C9) and their supporting lemmas.
   --------------------------------------------------------------------- -/

/-- A step is a frame step when success leaves the tree and the extracted
record untouched (decode steps only fill in decoded fields). -/
def StepFrame (f : PState → Except Err PState) : Prop :=
  ∀ s s', f s = .ok s' → s'.tree = s.tree ∧ s'.extracted = s.extracted

/-- Environment for witnesses: JSON.parse rejects everything (in
particular the empty string) and atob always throws. -/
def env0 : Env := { jsonParse := fun _ => none, atobFn := fun _ => none }

/-- The config text for the C9 counterexample: the JSON array of nine
empty strings, so every `decoded.t[idx]` key lookup yields the empty
base64 string. -/
def tTextC : String := "[\"\",\"\",\"\",\"\",\"\",\"\",\"\",\"\",\"\"]"

/-- The char codes of `tTextC`. -/
def tCodesC : List Nat := tTextC.toList.map Char.toNat

/-- What real JSON.parse yields on `tTextC`. -/
def tValC : Value :=
  .varr [.vstr "", .vstr "", .vstr "", .vstr "", .vstr "",
    .vstr "", .vstr "", .vstr "", .vstr ""]

/-- JSON.parse for the C9 counterexample, agreeing with the real
JSON.parse on every input the trace exercises: the config text `tTextC`
parses to `tValC`, the one-character text `1` (char code 49) parses to
the number 1, and the empty text is invalid JSON and is rejected. -/
def jsonParseC : List Nat → Option Value :=
  fun c =>
    if c = tCodesC then some tValC
    else if c = [49] then some (.vnum 1)
    else none

/-- Environment for the C9 counterexample. The only key string the trace
ever passes to atob is the empty string, on which the model agrees with
the real atob: `atob("")` is the empty byte string. -/
def envC : Env :=
  { jsonParse := jsonParseC,
    atobFn := fun s => if s = "" then some [] else none }

/-- `a.i.<k> = function() { return [codes...]; }` with the given char
codes as numeric literals. -/
def aiAssignArr (k : String) (codes : List Nat) : Node :=
  .assign (.member (.member (.ident "a") (.ident "i") false) (.ident k) false)
    (.funcExpr [.ret (some (.arrayLit (codes.map fun n => Node.num (Int.ofNat n))))])

/-- Program for the C9 counterexample: five of the six arrays (t, z, u,
l, I) are present and extractable — t carries the config text's char
codes, the others the one-character JSON text `1` — and uB is missing.
With the empty key, `xor` returns its input unchanged, so each present
table decodes under real JSON semantics. -/
def progC : List Node :=
  [aiAssignArr "t" tCodesC, aiAssignArr "z" [49], aiAssignArr "u" [49],
   aiAssignArr "l" [49], aiAssignArr "I" [49]]

/- Cipher lemmas. -/

theorem keyBytes_and224 (c : List Nat) : ∀ k ∈ keyBytes c, k &&& 224 = 0 := by
  intro k hk
  simp only [keyBytes, List.mem_map] at hk
  obtain ⟨x, _, rfl⟩ := hk
  have h31 : (31 : Nat) &&& 224 = 0 := by decide
  calc x &&& 31 &&& 224 = x &&& (31 &&& 224) := Nat.and_assoc x 31 224
    _ = x &&& 0 := by rw [h31]
    _ = 0 := Nat.and_zero x

theorem getD_and224 (e : List Nat) (he : ∀ k ∈ e, k &&& 224 = 0) (i : Nat) :
    e.getD i 0 &&& 224 = 0 := by
  rcases h : e[i]? with _ | k
  · simp [List.getD, h]
  · have hk : k ∈ e := List.getElem?_mem h
    simp [List.getD, h, he k hk]

theorem and224_xor (l k : Nat) (hk : k &&& 224 = 0) :
    (l ^^^ k) &&& 224 = l &&& 224 := by
  rw [Nat.and_xor_distrib_right, hk, Nat.xor_zero]

theorem xorGo_involution (e : List Nat) (d : Nat)
    (he : ∀ k ∈ e, k &&& 224 = 0) :
    ∀ (b : List Nat) (c : Nat), xorGo e d c (xorGo e d c b) = b := by
  intro b
  induction b with
  | nil => intro c; simp [xorGo]
  | cons l rest ih =>
    intro c
    have hk : e.getD c 0 &&& 224 = 0 := getD_and224 e he c
    by_cases hl : l &&& 224 ≠ 0
    · have h2 : (l ^^^ e.getD c 0) &&& 224 ≠ 0 := by
        rw [and224_xor l _ hk]; exact hl
      simp only [xorGo, if_pos hl, if_pos h2, ih]
      rw [Nat.xor_assoc, Nat.xor_self, Nat.xor_zero]
    · simp only [xorGo, if_neg hl, ih]

/-- C1: for every byte sequence whose bytes all satisfy `(byte & 0xE0) ≠ 0`
and every non-empty key, applying the raw XOR transform (the `xor` function
of deobfuscate.mjs, without the structured-parse step) twice with the same
key returns the original byte sequence. (The proof in fact never needs the
byte restriction: a low byte passes through unchanged both times.) -/
theorem xor_involution (b key : List Nat)
    (hb : ∀ x ∈ b, x &&& 224 ≠ 0) (hk : key ≠ []) :
    Deob.xor (Deob.xor b key) key = b := by
  have _hb := hb
  unfold Deob.xor
  rw [if_neg hk, if_neg hk]
  exact xorGo_involution (keyBytes key) (keyLen key) (keyBytes_and224 key) b 0

/-- Witness for C1 at a concrete input. -/
theorem xor_involution_witness :
    (∀ x ∈ [65, 200, 97], x &&& 224 ≠ 0) ∧ ([3, 77] : List Nat) ≠ [] ∧
      Deob.xor (Deob.xor [65, 200, 97] [3, 77]) [3, 77] = [65, 200, 97] :=
  ⟨by decide, by decide, xor_involution [65, 200, 97] [3, 77] (by decide) (by decide)⟩

theorem xorGo_get? (e : List Nat) (d : Nat) (hd : 0 < d) :
    ∀ (b : List Nat) (c i : Nat), c < d →
      (xorGo e d c b).get? i = (b.get? i).map (fun l =>
        if l &&& 224 ≠ 0 then l ^^^ e.getD ((c + i) % d) 0 else l) := by
  intro b
  induction b with
  | nil => intro c i _; simp [xorGo]
  | cons l rest ih =>
    intro c i hc
    cases i with
    | zero =>
      simp [xorGo, Nat.mod_eq_of_lt hc]
    | succ i =>
      have hc' : (if c + 1 = d then 0 else c + 1) < d := by
        by_cases h : c + 1 = d
        · simpa [h] using hd
        · have : c + 1 ≤ d := hc
          simp only [if_neg h]
          omega
      have := ih (if c + 1 = d then 0 else c + 1) i hc'
      simp only [xorGo, List.get?_cons_succ, this]
      congr 2
      by_cases h : c + 1 = d
      · simp only [if_pos h, Nat.zero_add]
        have : c + (i + 1) = d + i := by omega
        rw [this, Nat.add_mod_left]
      · simp only [if_neg h]
        have : c + 1 + i = c + (i + 1) := by omega
        rw [this]

/-- C6: for every input byte with `(byte & 0xE0) = 0` and every (non-empty)
key, the XOR transform outputs that byte unchanged at its position, and the
rolling key index still advances past it: the transform's output at every
position `i` uses key index `i % d` with `d = min(keyLength, 32)` — the
index advances on every input byte whether or not it was transformed. -/
theorem xor_passthrough_and_advance (b key : List Nat) (hk : key ≠ []) :
    (∀ i l, b.get? i = some l → l &&& 224 = 0 →
        (Deob.xor b key).get? i = some l) ∧
    (∀ i, (Deob.xor b key).get? i = (b.get? i).map (fun l =>
        if l &&& 224 ≠ 0 then l ^^^ (keyBytes key).getD (i % keyLen key) 0
        else l)) := by
  have hd : 0 < keyLen key := by
    have : key.length ≠ 0 := fun h => hk (List.eq_nil_of_length_eq_zero h)
    simp only [keyLen]
    omega
  have hform : ∀ i, (Deob.xor b key).get? i = (b.get? i).map (fun l =>
      if l &&& 224 ≠ 0 then l ^^^ (keyBytes key).getD (i % keyLen key) 0
      else l) := by
    intro i
    unfold Deob.xor
    rw [if_neg hk]
    have := xorGo_get? (keyBytes key) (keyLen key) hd b 0 i hd
    simpa using this
  refine ⟨?_, hform⟩
  intro i l hl hz
  rw [hform i, hl]
  simp [hz]

/-- Witness for C6 at a concrete input: byte 17 (≤ 31) passes through while
the key index advances past it (byte 65 at the next position is XORed with
key byte index 1, not 0). -/
theorem xor_passthrough_and_advance_witness :
    ([9, 5] : List Nat) ≠ [] ∧
      (Deob.xor [17, 65] [9, 5]).get? 0 = some 17 ∧
      (Deob.xor [17, 65] [9, 5]).get? 1 = some (65 ^^^ 5) := by
  refine ⟨by decide, ?_, ?_⟩
  · exact (xor_passthrough_and_advance [17, 65] [9, 5] (by decide)).1 0 17
      (by decide) (by decide)
  · have := (xor_passthrough_and_advance [17, 65] [9, 5] (by decide)).2 1
    rw [this]
    decide

/-- C7: applying the XOR transform with the empty key returns the byte
sequence unchanged (source: `if (c === '') return b;`). -/
theorem xor_empty_key_identity (b : List Nat) : Deob.xor b [] = b := by
  simp [Deob.xor]

/- Unfolding helpers for the two passes. -/

theorem resolveN_replace (d : DecTables) (o p : Node) (c : Bool) (repl : Node)
    (h : tryResolve d (.member o p c) = some repl) :
    resolveN d false (.member o p c) = repl := by
  simp [resolveN, h]

theorem resolveN_member_skip (d : DecTables) (o p : Node) (c : Bool)
    (h : tryResolve d (.member o p c) = none) :
    resolveN d false (.member o p c)
      = .member (resolveN d false o) (resolveN d false p) c := by
  simp [resolveN, h]

theorem gSubstN_replace (m : GMap) (o p : Node) (c : Bool) (repl : Node)
    (h : trySubst m (.member o p c) = some repl) :
    gSubstN m false (.member o p c) = repl := by
  simp [gSubstN, h]

/-- An own-property hit is a lookup hit (own properties shadow the
prototype chain). -/
theorem jsGet_own (tbl : Value) (f : String) (v : Value)
    (h : ownGet tbl f = some v) : jsGet tbl f = some v := by
  unfold jsGet; rw [h]

/-- With no own property, only `__proto__` hits (on the prototype). -/
theorem jsGet_miss (tbl : Value) (f : String)
    (hown : ownGet tbl f = none) (hproto : f ≠ "__proto__") :
    jsGet tbl f = none := by
  unfold jsGet
  rw [hown]
  cases tbl <;> simp [hproto]

/-- A node with a statically determinable property name is an identifier,
string or numeric literal, and those are left unchanged by the resolver. -/
theorem resolveN_static_prop (d : DecTables) (p : Node) (s : String)
    (h : staticPropName p = some s) : resolveN d false p = p := by
  cases p <;> first | rfl | simp [staticPropName] at h

/- ---------------------------------------------------------------------
   Claims about the rewrite passes.
   --------------------------------------------------------------------- -/

/-- C2 (amended): the node that is itself the direct target of an
assignment, update or delete is never replaced by either pass — in
particular `delete a.H.z.foo` and `a.H.z.foo++` keep their `a.H.z.foo`
access unmodified, and likewise for `a.G` accesses — but nodes strictly
inside such a target are still visited in read position and may be
rewritten (see the counterexample). -/
theorem write_targets_not_replaced (d : DecTables) (m : GMap) :
    (∀ l r, resolveN d false (.assign l r)
        = .assign (resolveN d true l) (resolveN d false r)) ∧
    (∀ a, resolveN d false (.update a) = .update (resolveN d true a)) ∧
    (∀ a, resolveN d false (.unary "delete" a)
        = .unary "delete" (resolveN d true a)) ∧
    (∀ o p c, resolveN d true (.member o p c)
        = .member (resolveN d false o) (resolveN d false p) c) ∧
    (resolveN d false (.unary "delete" (aH3 "z" "foo"))
        = .unary "delete" (aH3 "z" "foo")) ∧
    (resolveN d false (.update (aH3 "z" "foo")) = .update (aH3 "z" "foo")) ∧
    (∀ l r, gSubstN m false (.assign l r)
        = .assign (gSubstN m true l) (gSubstN m false r)) ∧
    (∀ a, gSubstN m false (.update a) = .update (gSubstN m true a)) ∧
    (∀ a, gSubstN m false (.unary "delete" a)
        = .unary "delete" (gSubstN m true a)) ∧
    (∀ o p c, gSubstN m true (.member o p c)
        = .member (gSubstN m false o) (gSubstN m false p) c) ∧
    (gSubstN m false (.unary "delete" (aG "x")) = .unary "delete" (aG "x")) ∧
    (gSubstN m false (.update (aG "x")) = .update (aG "x")) := by
  refine ⟨?_, ?_, ?_, ?_, ?_, ?_, ?_, ?_, ?_, ?_, ?_, ?_⟩ <;> intros <;> rfl

/-- C2 counterexample: with DecodedTable.z = {foo: 42}, the assignment
`a.H.z.foo.bar = 5` has target `a.H.z.foo.bar`; the node `a.H.z.foo`
sits *inside* that target, yet the resolver replaces it, producing
`(42).bar = 5` — so it is false that no node inside a write target is
ever replaced. -/
theorem counter_write_target_inner_replaced :
    resolveN ⟨.vobj [("foo", .vnum 42)], .vnull, .vnull, .vnull, .vnull⟩ false
        (.assign (.member (aH3 "z" "foo") (.ident "bar") false) (.num 5))
      = .assign (.member (.num 42) (.ident "bar") false) (.num 5) ∧
    Node.assign (.member (.num 42) (.ident "bar") false) (.num 5)
      ≠ .assign (.member (aH3 "z" "foo") (.ident "bar") false) (.num 5) := by
  refine ⟨rfl, ?_⟩
  simp [aH3]

/-- C3 (amended): a read-position access `a.H.<key>.<field>` with `<key>`
one of the five decoded-table identifiers, a non-empty statically
determined `<field>` name (the source's `if (!propName) return;` skips
the falsy empty string, see the counterexample) and an own table entry
for `<field>` is replaced — as a whole — by the rehydrated literal of the
entry's value; in particular `console.log(a.H.z.foo)` becomes
`console.log(42)` when DecodedTable.z = {foo: 42}. -/
theorem resolver_read_substitution (d : DecTables) (keyP propP : Node)
    (c1 c2 c3 : Bool) (k f : String) (tbl v : Value)
    (hkey : staticPropName keyP = some k)
    (htbl : d.lookup k = some tbl)
    (hf : staticPropName propP = some f)
    (hne : f ≠ "")
    (hv : ownGet tbl f = some v) :
    resolveN d false
        (.member (.member (.member (.ident "a") (.ident "H") c1) keyP c2) propP c3)
      = valueToAst v ∧
    resolveN d false (.call (.member (.ident "console") (.ident "log") false)
        [.member (.member (.member (.ident "a") (.ident "H") c1) keyP c2) propP c3])
      = .call (.member (.ident "console") (.ident "log") false) [valueToAst v] := by
  have htry : tryResolve d
      (.member (.member (.member (.ident "a") (.ident "H") c1) keyP c2) propP c3)
        = some (valueToAst v) := by
    simp [tryResolve, hkey, htbl, hf, hne, jsGet_own tbl f v hv]
  have hacc := resolveN_replace d _ _ _ _ htry
  refine ⟨hacc, ?_⟩
  have hcall : resolveN d false (.call (.member (.ident "console") (.ident "log") false)
      [.member (.member (.member (.ident "a") (.ident "H") c1) keyP c2) propP c3])
        = .call (.member (.ident "console") (.ident "log") false)
            [resolveN d false (.member (.member (.member (.ident "a") (.ident "H") c1)
              keyP c2) propP c3)] := rfl
  rw [hcall, hacc]

/-- Witness for C3 with DecodedTable.z = {foo: 42}. -/
theorem resolver_read_substitution_witness :
    resolveN ⟨.vobj [("foo", .vnum 42)], .vnull, .vnull, .vnull, .vnull⟩ false
        (.call (.member (.ident "console") (.ident "log") false) [aH3 "z" "foo"])
      = .call (.member (.ident "console") (.ident "log") false) [.num 42] :=
  (resolver_read_substitution
    ⟨.vobj [("foo", .vnum 42)], .vnull, .vnull, .vnull, .vnull⟩
    (.ident "z") (.ident "foo") false false false "z" "foo"
    (.vobj [("foo", .vnum 42)]) (.vnum 42) rfl rfl rfl (by decide) rfl).2

/-- C3 counterexample: `a.H.z[""]` with DecodedTable.z holding an own
entry for the empty string. The claim asserts the access is replaced by
the rehydrated entry (42), but the source's `if (!propName) return;`
treats the empty property name as falsy and skips, leaving the node
unchanged. -/
theorem counter_resolver_empty_field_skipped :
    ownGet (.vobj [("", .vnum 42)]) "" = some (.vnum 42) ∧
    resolveN ⟨.vobj [("", .vnum 42)], .vnull, .vnull, .vnull, .vnull⟩ false
        (.member (.member (.member (.ident "a") (.ident "H") false)
          (.ident "z") false) (.str "") true)
      = .member (.member (.member (.ident "a") (.ident "H") false)
          (.ident "z") false) (.str "") true ∧
    Node.member (.member (.member (.ident "a") (.ident "H") false)
        (.ident "z") false) (.str "") true ≠ valueToAst (.vnum 42) := by
  refine ⟨rfl, rfl, ?_⟩
  simp [valueToAst]

/-- C5 (amended): a matched three-level access `a.H.<key>.<field>` whose
decoded table has no own entry for `<field>`, where `<field>` is not the
inherited `__proto__` name (whose lookup hits the prototype and is
rehydrated, see the counterexample), is left completely unmodified
(children included), and the pass — being a total function — raises no
error. Other inherited names (`toString`, `hasOwnProperty`, ...) are
covered: they yield functions, which `valueToAst` cannot rehydrate, so
the visitor skips them just like a plain miss. -/
theorem resolver_miss_unmodified (d : DecTables) (keyP propP : Node)
    (c1 c2 c3 : Bool) (k f : String) (tbl : Value)
    (hkey : staticPropName keyP = some k)
    (htbl : d.lookup k = some tbl)
    (hf : staticPropName propP = some f)
    (hproto : f ≠ "__proto__")
    (hv : ownGet tbl f = none) :
    resolveN d false
        (.member (.member (.member (.ident "a") (.ident "H") c1) keyP c2) propP c3)
      = .member (.member (.member (.ident "a") (.ident "H") c1) keyP c2) propP c3 := by
  have htry : tryResolve d
      (.member (.member (.member (.ident "a") (.ident "H") c1) keyP c2) propP c3)
        = none := by
    simp [tryResolve, hkey, htbl, hf, jsGet_miss tbl f hv hproto]
  rw [resolveN_member_skip d _ _ _ htry,
      resolveN_member_skip d (.member (.ident "a") (.ident "H") c1) keyP c2 rfl,
      resolveN_static_prop d keyP k hkey,
      resolveN_static_prop d propP f hf]
  rfl

/-- Witness for C5: `a.H.z.bar` with DecodedTable.z = {foo: 42} (no entry
for bar) is unchanged. -/
theorem resolver_miss_unmodified_witness :
    resolveN ⟨.vobj [("foo", .vnum 42)], .vnull, .vnull, .vnull, .vnull⟩ false
        (aH3 "z" "bar") = aH3 "z" "bar" :=
  resolver_miss_unmodified
    ⟨.vobj [("foo", .vnum 42)], .vnull, .vnull, .vnull, .vnull⟩
    (.ident "z") (.ident "bar") false false false "z" "bar"
    (.vobj [("foo", .vnum 42)]) rfl rfl rfl (by decide) rfl

/-- C5 counterexample: `a.H.z.__proto__` with DecodedTable.z = {foo: 42}.
The table has no entry for `__proto__`, yet the source does not leave the
node unmodified: the lookup hits `Object.prototype` (whose `Object.keys`
enumeration is empty), `valueToAst` rehydrates it as `{}`, and the access
is replaced by an empty object literal. -/
theorem counter_resolver_proto_replaced :
    ownGet (.vobj [("foo", .vnum 42)]) "__proto__" = none ∧
    resolveN ⟨.vobj [("foo", .vnum 42)], .vnull, .vnull, .vnull, .vnull⟩ false
        (aH3 "z" "__proto__") = .objectLit [] ∧
    Node.objectLit [] ≠ aH3 "z" "__proto__" := by
  refine ⟨rfl, rfl, ?_⟩
  simp [aH3]

/-- C10: property-name extraction ignores the `computed` flag, so a
computed access whose bracketed expression is a bare identifier is
treated exactly like the non-computed access with that textual name, by
both the resolver (`a.H.z[v]` behaves as `a.H.z.v`) and the alias
substitute pass (`a.G[v]` behaves as `a.G.v`). The hypothesis `s ≠ ""`
only excludes the empty identifier name, which no parser can produce;
the hypotheses on the recorded expression `e` — it is not itself
substitutable and a substitute pass over it rewrites nothing — pin `e`
to the region where inserting the recorded node without Babel's
re-traversal of `replaceWith` results is faithful (the re-visit of `e`
then finds nothing to rewrite). -/
theorem computed_bare_identifier_static (d : DecTables) (m : GMap)
    (k s : String) (tbl v : Value) (e : Node)
    (hs : s ≠ "")
    (htbl : d.lookup k = some tbl) (hv : jsGet tbl s = some v)
    (hg : getK m s = some e)
    (hroot : trySubst m e = none) (hfix : gSubstN m false e = e) :
    resolveN d false (.member (.member (.member (.ident "a") (.ident "H") false)
        (.ident k) false) (.ident s) true) = valueToAst v ∧
    resolveN d false (aH3 k s) = valueToAst v ∧
    gSubstN m false (.member (.member (.ident "a") (.ident "G") false)
        (.ident s) true) = e ∧
    gSubstN m false (aG s) = e := by
  have _hroot := hroot
  have _hfix := hfix
  refine ⟨resolveN_replace d _ _ _ _ ?_, ?_, gSubstN_replace m _ _ _ _ ?_, ?_⟩
  · simp [tryResolve, staticPropName, htbl, hs, hv]
  · rw [aH3]
    exact resolveN_replace d _ _ _ _
      (by simp [tryResolve, staticPropName, htbl, hs, hv])
  · simp [trySubst, staticPropName, hs, hg]
  · rw [aG]
    exact gSubstN_replace m _ _ _ _ (by simp [trySubst, staticPropName, hs, hg])

/-- Witness for C10 with DecodedTable.z = {v: 9} and gMap = {v: f()} (the
recorded call f() contains no a.G access, so both stability hypotheses
hold by computation). -/
theorem computed_bare_identifier_static_witness :
    resolveN ⟨.vobj [("v", .vnum 9)], .vnull, .vnull, .vnull, .vnull⟩ false
        (.member (.member (.member (.ident "a") (.ident "H") false)
          (.ident "z") false) (.ident "v") true) = .num 9 ∧
    gSubstN [("v", .call (.ident "f") [])] false
        (.member (.member (.ident "a") (.ident "G") false) (.ident "v") true)
      = .call (.ident "f") [] := by
  have h := computed_bare_identifier_static
    ⟨.vobj [("v", .vnum 9)], .vnull, .vnull, .vnull, .vnull⟩
    [("v", .call (.ident "f") [])] "z" "v"
    (.vobj [("v", .vnum 9)]) (.vnum 9) (.call (.ident "f") [])
    (by decide) rfl rfl rfl rfl rfl
  exact ⟨h.1, h.2.2.1⟩

/-- C4 (amended): the alias inliner collects every `a.G.<key> = <expr>`
assignment with later assignments to the same key overwriting earlier
ones, and replaces read occurrences of `a.G.<key>` with the recorded
expression; the assignment statements remain present with their left-hand
targets unmodified — but a read of `a.G.<key>` inside another statement
(including another assignment's right-hand side, see the counterexample)
is rewritten like any other read. The hypothesis `k ≠ ""` only excludes
the empty identifier name, which no parser can produce (and which the
source's falsy-key guards skip). -/
theorem alias_collect_inline_amended (k gn f1 f2 : String) (hk : k ≠ "") :
    aliasRun [.assign (aG k) (.call (.ident f1) []),
              .assign (aG k) (.call (.ident f2) []),
              .call (.ident gn) [aG k]]
      = [.assign (aG k) (.call (.ident f1) []),
         .assign (aG k) (.call (.ident f2) []),
         .call (.ident gn) [.call (.ident f2) []]] := by
  simp [aliasRun, gCollectL, gCollectN, gCollectHere, setK, staticPropName,
    getK, gSubstL, gSubstN, trySubst, aG, hk]

/-- Witness for the amended C4 at the spec's example shape
`a.G.x = c1(); a.G.x = c2(); later(a.G.x)`. -/
theorem alias_collect_inline_amended_witness :
    aliasRun [.assign (aG "x") (.call (.ident "c1") []),
              .assign (aG "x") (.call (.ident "c2") []),
              .call (.ident "later") [aG "x"]]
      = [.assign (aG "x") (.call (.ident "c1") []),
         .assign (aG "x") (.call (.ident "c2") []),
         .call (.ident "later") [.call (.ident "c2") []]] :=
  alias_collect_inline_amended "x" "later" "c1" "c2" (by decide)

/-- C4 counterexample: in `a.G.y = 1; a.G.x = a.G.y;` the second
assignment statement does not remain unmodified — its right-hand side
read of `a.G.y` is rewritten to `1` — so it is false that the original
assignment statements always remain unmodified in the output. -/
theorem counter_alias_assignment_modified :
    aliasRun [.assign (aG "y") (.num 1), .assign (aG "x") (aG "y")]
      = [.assign (aG "y") (.num 1), .assign (aG "x") (.num 1)] ∧
    Node.assign (aG "x") (.num 1) ≠ .assign (aG "x") (aG "y") := by
  refine ⟨rfl, ?_⟩
  simp [aG]

theorem stepT_frame (env : Env) : StepFrame (stepT env) := by
  intro s s' h
  unfold stepT at h
  split at h
  · cases h
  · cases h; exact ⟨rfl, rfl⟩

theorem stepZ_frame (env : Env) : StepFrame (stepZ env) := by
  intro s s' h
  unfold stepZ at h
  split at h
  · cases h
  · cases h; exact ⟨rfl, rfl⟩

theorem stepU_frame (env : Env) : StepFrame (stepU env) := by
  intro s s' h
  unfold stepU at h
  split at h
  · cases h
  · cases h; exact ⟨rfl, rfl⟩

theorem stepL_frame (env : Env) : StepFrame (stepL env) := by
  intro s s' h
  unfold stepL at h
  split at h
  · cases h
  · cases h; exact ⟨rfl, rfl⟩

theorem stepI_frame (env : Env) : StepFrame (stepI env) := by
  intro s s' h
  unfold stepI at h
  split at h
  · cases h
  · cases h; exact ⟨rfl, rfl⟩

theorem stepUB_frame (env : Env) : StepFrame (stepUB env) := by
  intro s s' h
  unfold stepUB at h
  split at h
  · cases h
  · cases h; exact ⟨rfl, rfl⟩

theorem decodeSteps_frame (env : Env) : ∀ f ∈ decodeSteps env, StepFrame f := by
  intro f hf
  simp only [decodeSteps, List.mem_cons, List.not_mem_nil, or_false] at hf
  rcases hf with rfl | rfl | rfl | rfl | rfl | rfl
  exacts [stepT_frame env, stepZ_frame env, stepU_frame env,
    stepL_frame env, stepI_frame env, stepUB_frame env]

theorem runChain_frame (fs : List (PState → Except Err PState))
    (hfs : ∀ f ∈ fs, StepFrame f) :
    ∀ s : PState, (runChain fs s).1.tree = s.tree ∧
      (runChain fs s).1.extracted = s.extracted := by
  induction fs with
  | nil => intro s; exact ⟨rfl, rfl⟩
  | cons f fs ih =>
    intro s
    rcases hfe : f s with e | s'
    · simp [runChain, hfe]
    · have hframe := hfs f (by simp) s s' hfe
      have hrest := ih (fun g hg => hfs g (by simp [hg])) s'
      simp only [runChain, hfe]
      exact ⟨hrest.1.trans hframe.1, hrest.2.trans hframe.2⟩

/-- C8: if any decode step fails, no tree mutation has occurred at the
point of failure — decoding precedes all rewriting, so the state at a
decode failure carries the tree exactly as produced by the parser. -/
theorem decode_failure_tree_unchanged (env : Env) (p : List Node) (e : Err)
    (h : (deobfuscate env p).2 = some e) :
    (deobfuscate env p).1.tree = p := by
  have hframe := runChain_frame (decodeSteps env) (decodeSteps_frame env) (initState p)
  rcases hrc : runChain (decodeSteps env) (initState p) with ⟨s, oe⟩
  rw [hrc] at hframe
  cases oe with
  | none =>
      have hd : (deobfuscate env p).snd = none := by
        unfold deobfuscate; rw [hrc]
      rw [hd] at h; cases h
  | some e' =>
      have hd : deobfuscate env p = (s, some e') := by
        unfold deobfuscate; rw [hrc]
      rw [hd]
      exact hframe.1

/-- Witness for C8: with every decode rejected, the empty program fails at
the first decode step and its tree is returned as parsed. -/
theorem decode_failure_tree_unchanged_witness :
    (deobfuscate env0 []).2 = some (.decodeFail "t") ∧
      (deobfuscate env0 []).1.tree = [] :=
  ⟨rfl, decode_failure_tree_unchanged env0 [] (.decodeFail "t") rfl⟩

theorem xor_nil (c : List Nat) : Deob.xor [] c = [] := by
  unfold Deob.xor
  split
  · rfl
  · rfl

theorem decodeArray_missing (env : Env) (hempty : env.jsonParse [] = none)
    (key : String) : decodeArray env none key = none := by
  unfold decodeArray
  cases env.atobFn key with
  | none => rfl
  | some kb =>
      show env.jsonParse (Deob.xor (codesOfBytes none) kb) = none
      rw [show codesOfBytes none = [] from rfl, xor_nil, hempty]

theorem stepT_fails (env : Env) (hempty : env.jsonParse [] = none)
    (s : PState) (h : getEx s.extracted "t" = none) :
    ∃ e, stepT env s = .error e := by
  refine ⟨.decodeFail "t", ?_⟩
  unfold stepT
  rw [h, show codesOfBytes none = [] from rfl, hempty]

theorem stepZ_fails (env : Env) (hempty : env.jsonParse [] = none)
    (s : PState) (h : getEx s.extracted "z" = none) :
    ∃ e, stepZ env s = .error e := by
  refine ⟨.decodeFail "z", ?_⟩
  unfold stepZ
  rw [h, decodeArray_missing env hempty _]

theorem stepU_fails (env : Env) (hempty : env.jsonParse [] = none)
    (s : PState) (h : getEx s.extracted "u" = none) :
    ∃ e, stepU env s = .error e := by
  refine ⟨.decodeFail "u", ?_⟩
  unfold stepU
  rw [h, decodeArray_missing env hempty _]

theorem stepL_fails (env : Env) (hempty : env.jsonParse [] = none)
    (s : PState) (h : getEx s.extracted "l" = none) :
    ∃ e, stepL env s = .error e := by
  refine ⟨.decodeFail "l", ?_⟩
  unfold stepL
  rw [h, decodeArray_missing env hempty _]

theorem stepI_fails (env : Env) (hempty : env.jsonParse [] = none)
    (s : PState) (h : getEx s.extracted "I" = none) :
    ∃ e, stepI env s = .error e := by
  refine ⟨.decodeFail "I", ?_⟩
  unfold stepI
  rw [h, decodeArray_missing env hempty _]

theorem stepUB_fails (env : Env) (hempty : env.jsonParse [] = none)
    (s : PState) (h : getEx s.extracted "uB" = none) :
    ∃ e, stepUB env s = .error e := by
  refine ⟨.decodeFail "uB", ?_⟩
  unfold stepUB
  rw [h, decodeArray_missing env hempty _]

theorem runChain_fails (fs : List (PState → Except Err PState))
    (hfs : ∀ f ∈ fs, StepFrame f) :
    ∀ s : PState,
      (∃ f ∈ fs, ∀ x : PState, x.extracted = s.extracted → ∃ e, f x = .error e) →
      (runChain fs s).2.isSome := by
  induction fs with
  | nil =>
      intro s h
      rcases h with ⟨f, hf, _⟩
      simp at hf
  | cons f fs ih =>
    intro s h
    rcases hfe : f s with e | s'
    · simp [runChain, hfe]
    · rcases h with ⟨g, hg, hfail⟩
      rcases List.mem_cons.mp hg with rfl | hg'
      · rcases hfail s rfl with ⟨e, he⟩
        rw [hfe] at he; cases he
      · have hext : s'.extracted = s.extracted := (hfs f (by simp) s s' hfe).2
        have hrec := ih (fun g' hg'' => hfs g' (by simp [hg''])) s'
          ⟨g, hg', fun x hx => hfail x (hx.trans hext)⟩
        simp only [runChain, hfe]
        exact hrec

/-- C9 (amended): if any one of the six recognized identifiers' arrays
cannot be extracted, the whole run fails fatally and no tree rewriting
occurs (the tree is returned exactly as parsed); the abort happens during
the decode phase, however — not before any decoding — since decode steps
for tables earlier in the fixed order may already have completed (see the
counterexample). The only assumption on the external JSON parser is that
it rejects empty input, which the JSON grammar mandates. -/
theorem missing_table_fatal_before_rewrite (env : Env) (p : List Node)
    (k : String) (hk : k ∈ ["t", "z", "u", "l", "I", "uB"])
    (hempty : env.jsonParse [] = none)
    (hmiss : getEx (extractAll p) k = none) :
    (deobfuscate env p).2.isSome ∧ (deobfuscate env p).1.tree = p := by
  have hfs := decodeSteps_frame env
  have hbad : ∃ f ∈ decodeSteps env, ∀ x : PState,
      x.extracted = (initState p).extracted → ∃ e, f x = .error e := by
    simp only [List.mem_cons, List.not_mem_nil, or_false] at hk
    rcases hk with rfl | rfl | rfl | rfl | rfl | rfl
    · refine ⟨stepT env, by simp [decodeSteps], fun x hx => stepT_fails env hempty x ?_⟩
      rw [hx]; exact hmiss
    · refine ⟨stepZ env, by simp [decodeSteps], fun x hx => stepZ_fails env hempty x ?_⟩
      rw [hx]; exact hmiss
    · refine ⟨stepU env, by simp [decodeSteps], fun x hx => stepU_fails env hempty x ?_⟩
      rw [hx]; exact hmiss
    · refine ⟨stepL env, by simp [decodeSteps], fun x hx => stepL_fails env hempty x ?_⟩
      rw [hx]; exact hmiss
    · refine ⟨stepI env, by simp [decodeSteps], fun x hx => stepI_fails env hempty x ?_⟩
      rw [hx]; exact hmiss
    · refine ⟨stepUB env, by simp [decodeSteps], fun x hx => stepUB_fails env hempty x ?_⟩
      rw [hx]; exact hmiss
  have hsome := runChain_fails (decodeSteps env) hfs (initState p) hbad
  have hframe := runChain_frame (decodeSteps env) hfs (initState p)
  rcases hrc : runChain (decodeSteps env) (initState p) with ⟨s, oe⟩
  rw [hrc] at hsome hframe
  cases oe with
  | none => simp at hsome
  | some e' =>
      have hd : deobfuscate env p = (s, some e') := by
        unfold deobfuscate; rw [hrc]
      rw [hd]
      exact ⟨rfl, hframe.1⟩

/-- Witness for the amended C9: the empty program (all six identifiers
missing) under an environment whose parser rejects everything. -/
theorem missing_table_fatal_before_rewrite_witness :
    ("t" ∈ ["t", "z", "u", "l", "I", "uB"]) ∧
      (deobfuscate env0 []).2.isSome ∧ (deobfuscate env0 []).1.tree = [] :=
  ⟨by simp, missing_table_fatal_before_rewrite env0 [] "t" (by simp) rfl rfl⟩

/-- C9 counterexample: with only uB missing, the run does fail fatally —
but the abort does NOT happen before any decoding is performed: by the
time the uB step fails, the z table (among others) has already been
decoded to the number 1, as the failure state records. Every builtin
call on this trace agrees with the real JSON.parse and atob: the config
decodes from the valid JSON text `tTextC`, each present table decodes
from the text `1` under the empty base64 key (for which `xor` is the
identity), and the missing uB decodes from the empty text, which is
invalid JSON and throws. -/
theorem counter_decode_performed_before_abort :
    (deobfuscate envC progC).2 = some (.decodeFail "uB") ∧
      (deobfuscate envC progC).1.decodedZ = some (.vnum 1) :=
  ⟨rfl, rfl⟩

end Deob
